import Mathlib

/-!
Shallow embedding of the `bw.bwconstraint` validity/coercion engine.

Python values are modelled by `Value` (ints, bools, strings, `None`,
lists, tuples and string-keyed dicts).  Each constraint class of
`bwconstraint.py` becomes a constructor of `Constraint`; the `check`,
`convert` and `coerce` methods become total Lean functions.  A Python
exception raised inside a user-supplied predicate or converter is
modelled by `Option.none` in `PyFun`; the `AttributeError` raised when
`convert` is called on a collection or sequence constraint (which lack
`convert_in`) is modelled by `ConvRes.error`.
-/

namespace BW

/-- Embedded Python values (the kinds the engine is exercised with).
`VBool` is kept separate from `VInt` but compares and instance-checks
like Python's `bool`, a subclass of `int`. Dict keys are restricted to
strings. -/
inductive Value where
  | VNone : Value
  | VBool (b : Bool) : Value
  | VInt (n : Int) : Value
  | VStr (s : String) : Value
  | VList (xs : List Value) : Value
  | VTuple (xs : List Value) : Value
  | VDict (xs : List (String × Value)) : Value

open Value

/-- Python truthiness: `bool(x)`. -/
def truthy : Value → Bool
  | VNone => false
  | VBool b => b
  | VInt n => n != 0
  | VStr s => s != ""
  | VList xs => !xs.isEmpty
  | VTuple xs => !xs.isEmpty
  | VDict xs => !xs.isEmpty

mutual

/-- Python structural equality (`==`) on the embedded values: booleans
compare numerically with ints, lists/tuples compare pointwise with
values of the same container kind, dicts compare as mappings. -/
def pyEq : Value → Value → Bool
  | VNone, VNone => true
  | VBool a, VBool b => a == b
  | VBool a, VInt n => (if a then (1 : Int) else 0) == n
  | VInt n, VBool a => n == (if a then (1 : Int) else 0)
  | VInt a, VInt b => a == b
  | VStr a, VStr b => a == b
  | VList a, VList b => pyEqList a b
  | VTuple a, VTuple b => pyEqList a b
  | VDict a, VDict b => a.length == b.length && pyEqDictSub a b
  | _, _ => false

/-- Pointwise `==` on equally long element lists. -/
def pyEqList : List Value → List Value → Bool
  | [], [] => true
  | x :: xs, y :: ys => pyEq x y && pyEqList xs ys
  | _, _ => false

/-- Every binding of the first dict is matched, by key, by an equal
binding of the second. -/
def pyEqDictSub : List (String × Value) → List (String × Value) → Bool
  | [], _ => true
  | (k, v) :: rest, b =>
      (match b.find? (fun kv2 => kv2.1 == k) with
       | some kv2 => pyEq v kv2.2
       | none => false) && pyEqDictSub rest b

end

/-- The Python types the engine's `ISA` constraints range over. -/
inductive Ty where
  | TInt | TBool | TStr | TList | TTuple | TDict
deriving Repr, DecidableEq

open Ty

/-- `isinstance(v, t)`; `bool` is a subclass of `int`. -/
def isInstance : Value → Ty → Bool
  | VBool _, TBool => true
  | VBool _, TInt => true
  | VInt _, TInt => true
  | VStr _, TStr => true
  | VList _, TList => true
  | VTuple _, TTuple => true
  | VDict _, TDict => true
  | _, _ => false

/-- `iter(v)` as a list of the yielded elements: `none` when the value
is not iterable (`TypeError`). Strings yield their characters, dicts
their keys. -/
def toIter : Value → Option (List Value)
  | VList xs => some xs
  | VTuple xs => some xs
  | VStr s => some (s.data.map (fun c => VStr (String.mk [c])))
  | VDict xs => some (xs.map (fun kv => VStr kv.1))
  | VNone => none
  | VBool _ => none
  | VInt _ => none

/-- `int(s)` on a string: optional surrounding whitespace, optional
sign, at least one digit; anything else raises (`none`). -/
def parseIntChars (cs : List Char) : Option Int :=
  let t := ((cs.dropWhile Char.isWhitespace).reverse.dropWhile
              Char.isWhitespace).reverse
  let signed :=
    match t with
    | c :: rest =>
        if c = Char.ofNat 45 then some (true, rest)
        else if c = Char.ofNat 43 then some (false, rest)
        else some (false, t)
    | [] => none
  match signed with
  | some (neg, ds) =>
      if !ds.isEmpty && ds.all Char.isDigit then
        let n : Nat := ds.foldl (fun acc c => acc * 10 + (c.toNat - 48)) 0
        some (if neg then -(n : Int) else (n : Int))
      else none
  | none => none

/-- `int(s)` on a string value. -/
def parseIntStr (s : String) : Option Int :=
  parseIntChars s.data

mutual

/-- `repr(v)` (close enough for the embedded value kinds; string
escaping is not reproduced). -/
def pyRepr : Value → String
  | VNone => "None"
  | VBool b => if b then "True" else "False"
  | VInt n => toString n
  | VStr s => "\x27" ++ s ++ "\x27"
  | VList xs => "[" ++ String.intercalate ", " (pyReprList xs) ++ "]"
  | VTuple xs => "(" ++ String.intercalate ", " (pyReprList xs) ++ ")"
  | VDict xs => "\x7b" ++ String.intercalate ", " (pyReprDict xs) ++ "\x7d"

/-- `repr` of each element of a list. -/
def pyReprList : List Value → List String
  | [] => []
  | x :: xs => pyRepr x :: pyReprList xs

/-- `repr` of each binding of a dict. -/
def pyReprDict : List (String × Value) → List String
  | [] => []
  | (k, v) :: xs => ("\x27" ++ k ++ "\x27: " ++ pyRepr v) :: pyReprDict xs

end

/-- `str(v)`: the string itself for strings, `repr` otherwise. -/
def pyStr : Value → String
  | VStr s => s
  | v => pyRepr v

/-- One element of an iterable fed to `dict(...)`: it must be a
two-element sequence whose first item is a (string) key. -/
def toPair : Value → Option (String × Value)
  | VTuple [VStr k, w] => some (k, w)
  | VList [VStr k, w] => some (k, w)
  | _ => none

/-- The unary constructor call `t(v)` attempted by `BWIsaConstraint.convert`;
`none` models the constructor raising. -/
def construct : Ty → Value → Option Value
  | TInt, VInt n => some (VInt n)
  | TInt, VBool b => some (VInt (if b then 1 else 0))
  | TInt, VStr s => (parseIntStr s).map VInt
  | TInt, _ => none
  | TBool, v => some (VBool (truthy v))
  | TStr, v => some (VStr (pyStr v))
  | TList, v => (toIter v).map VList
  | TTuple, v => (toIter v).map VTuple
  | TDict, VDict es => some (VDict es)
  | TDict, v => (toIter v).bind (fun xs => (xs.mapM toPair).map VDict)

/-- A user-supplied Python function of one argument: `none` models the
call raising an exception. -/
def PyFun : Type := Value → Option Value

/-- Which native container kinds a collection constraint accepts
(`BWListConstraint` / `BWTupleConstraint` / `BWArrayConstraint`). -/
inductive CollKind where
  | listKind | tupleKind | arrayKind
deriving Repr, DecidableEq

/-- The `collection_types` attribute of each collection constraint class. -/
def collTypes : CollKind → List Ty
  | .listKind => [TList]
  | .tupleKind => [TTuple]
  | .arrayKind => [TList, TTuple]

/-- The constraint classes of `bwconstraint.py`.  `IS` (reference
identity membership) is outside the value model and not embedded;
`EXPR` materializes to the same shape as `FN`. -/
inductive Constraint where
  | CNot (c : Constraint)
  | CNever
  | CAlways
  | CAny (cs : List Constraint)
  | CAll (cs : List Constraint)
  | CIn (vals : List Value)
  | CFn (f : PyFun) (name : String)
  | CInto (f : PyFun) (name : String)
  | CIsa (tys : List Ty)
  | CColl (k : CollKind) (cs : List Constraint)
  | CDict (dflt : Option Constraint) (kcs : List (String × Constraint))
  | CSeq (cs : List Constraint)

open Constraint

/-- `getattr(constraint, 'check_all', None) is not None`: only
`BWSequenceConstraint` defines the whole-value probe. -/
def hasCheckAll : Constraint → Bool
  | CSeq _ => true
  | _ => false

/-- The elements a list/tuple candidate yields when iterated (only
reached behind the `isinstance` guard of the collection check). -/
def pyElems : Value → List Value
  | VList xs => xs
  | VTuple xs => xs
  | _ => []

mutual

/-- `check` of each constraint class, returning the raw Python object
the method returns (`FN.check` returns whatever the predicate returned;
the collection check can fall off the end of the function and return
`None`).  A `DICT` check applied to a non-mapping raises in the source
and is not modelled (the claims only check mappings against `DICT`). -/
def check : Constraint → Value → Value
  | CNot c, v => VBool (!truthy (check c v))
  | CNever, _ => VBool false
  | CAlways, _ => VBool true
  | CAny cs, v => VBool (cs.isEmpty || checkDisj cs v)
  | CAll cs, v => VBool (checkConj cs v)
  | CIn vals, v => VBool (vals.any (fun w => pyEq w v))
  | CFn f _, v => (f v).getD (VBool false)
  | CInto _ _, _ => VBool false
  | CIsa tys, v => VBool (tys.any (fun t => isInstance v t))
  | CColl k cs, v =>
      let ca := cs.any hasCheckAll
      if ca && !probeOkay cs v then VBool false
      else if !((collTypes k).any (isInstance v)) then VBool false
      else if cs.isEmpty then VBool true
      else
        match pyElems v with
        | [] => VNone
        | item :: _ => if firstItemMatch cs item then VBool true else VBool ca
  | CDict dflt kcs, v =>
      match v with
      | VDict entries =>
          VBool (dictNamedOk kcs entries && dictDefaultOk dflt kcs entries)
      | _ => VBool false
  | CSeq cs, v =>
      match toIter v with
      | none => VBool false
      | some items => VBool (seqMatch cs items)

/-- `BWAnyConstraint.check_in`: the first matching child returns true. -/
def checkDisj : List Constraint → Value → Bool
  | [], _ => false
  | c :: cs, v => truthy (check c v) || checkDisj cs v

/-- `BWAllConstraint.check_in`: the first failing child returns false. -/
def checkConj : List Constraint → Value → Bool
  | [], _ => true
  | c :: cs, v => truthy (check c v) && checkConj cs v

/-- First loop of `BWCollectionConstraint.check_in`: some child with the
`check_all` probe accepts the whole candidate. -/
def probeOkay : List Constraint → Value → Bool
  | [], _ => false
  | c :: cs, v => (hasCheckAll c && truthy (check c v)) || probeOkay cs v

/-- Inner loop of `BWCollectionConstraint.check_in` on a single element:
some probe-free child accepts it. -/
def firstItemMatch : List Constraint → Value → Bool
  | [], _ => false
  | c :: cs, item =>
      (!hasCheckAll c && truthy (check c item)) || firstItemMatch cs item

/-- Named-key half of the `BWDictionaryConstraint.check` loop: every
candidate binding whose key carries a named constraint must satisfy it
(`self.key_constraints.get(key, default)` resolves to the named entry).
The source iterates candidate bindings and resolves per key; since dict
keys are unique, iterating the named constraints instead is the same
predicate. -/
def dictNamedOk : List (String × Constraint) → List (String × Value) → Bool
  | [], _ => true
  | (k0, c0) :: rest, entries =>
      entries.all (fun kv => kv.1 != k0 || truthy (check c0 kv.2)) &&
      dictNamedOk rest entries

/-- Default half of the `BWDictionaryConstraint.check` loop: every
candidate binding with no named constraint must satisfy the default; a
`None` default means such bindings are ignored (`if check is not None`). -/
def dictDefaultOk :
    Option Constraint → List (String × Constraint) → List (String × Value) → Bool
  | none, _, _ => true
  | some c, kcs, entries =>
      entries.all (fun kv =>
        kcs.any (fun kc => kc.1 == kv.1) || truthy (check c kv.2))

/-- Constraint/element pairing loop of `BWSequenceConstraint.check_in`:
fails on the first mismatch, on exhaustion with constraints left, and on
leftover elements. -/
def seqMatch : List Constraint → List Value → Bool
  | [], [] => true
  | [], _ :: _ => false
  | _ :: _, [] => false
  | c :: cs, x :: xs => truthy (check c x) && seqMatch cs xs

end

/-- Outcome of `convert(source, INVALID)`: a converted value, the
`INVALID` sentinel, or a propagated exception (`convert` on a collection
or sequence constraint raises `AttributeError`, since neither defines
`convert_in`). -/
inductive ConvRes where
  | ok (v : Value)
  | invalid
  | error

mutual

/-- `convert` of each constraint class, with the `INVALID` sentinel as
the invalid marker (as passed by the `<<` / `>>` coercion operators).
`BWConstraint.convert` (the inherited default for `NOT`, `IN`, `FN` and
`DICT`) returns the marker unconditionally. -/
def convert : Constraint → Value → ConvRes
  | CNot _, _ => .invalid
  | CNever, _ => .invalid
  | CAlways, v => .ok v
  | CAny cs, v => convertFold (CAny cs) cs v
  | CAll cs, v => convertFold (CAll cs) cs v
  | CIn _, _ => .invalid
  | CFn _ _, _ => .invalid
  | CInto f _, v =>
      match f v with
      | some r => .ok r
      | none => .invalid
  | CIsa tys, v =>
      match tys.findSome? (fun t => construct t v) with
      | some r => .ok r
      | none => .invalid
  | CColl _ _, _ => .error
  | CDict _ _, _ => .invalid
  | CSeq _, _ => .error

/-- `convert_in` shared by `BWAnyConstraint` and `BWAllConstraint`:
try each child's `convert` in order and return the first result that is
not the `INVALID` sentinel and is accepted by the aggregate (`self`)
check; return the marker when the children are exhausted.  A child
raising propagates. -/
def convertFold (self : Constraint) : List Constraint → Value → ConvRes
  | [], _ => .invalid
  | c :: cs, v =>
      match convert c v with
      | .error => .error
      | .invalid => convertFold self cs v
      | .ok r => if truthy (check self r) then .ok r else convertFold self cs v

end

/-- `BWConstraint.coerce`: the source itself when the check passes,
otherwise the conversion result. -/
def coerce (c : Constraint) (source : Value) : ConvRes :=
  if truthy (check c source) then .ok source else convert c source

/-- `a + b` on constraints: `BWSequenceConstraint.__add__` concatenates
child lists or appends one more positional child;
`BWConstraint.__add__` dispatches to the sequence's `__radd__` (prepend)
when the right operand is a sequence, and otherwise builds `SEQ(a, b)`
(`from_multi` resolves constraint arguments to themselves). -/
def addC (a b : Constraint) : Constraint :=
  match a with
  | CSeq l =>
      match b with
      | CSeq m => CSeq (l ++ m)
      | _ => CSeq (l ++ [b])
  | _ =>
      match b with
      | CSeq m => CSeq (a :: m)
      | _ => CSeq [a, b]

/-- `n * c` / `c * n`: `SEQ(*(c,) * n)`, a sequence of `n` references to
the same constraint. -/
def mulC (n : Nat) (c : Constraint) : Constraint :=
  CSeq (List.replicate n c)

/-!  The symbolic expression builder (`BWConstraintGenerator`).  The
source records the expression as a textual form and materializes it by
compiling `lambda ____: <text with # replaced>`; the embedding records
the same expression as a tree and materializes it by interpreting the
tree against the candidate substituted for the placeholder.  Only the
operations the development needs are embedded. -/

/-- A recorded symbolic expression: the placeholder (`#`), a literal
operand, or a comparison recorded by `BWConstraintGenerator.__lt__`. -/
inductive BWExpr where
  | hole
  | lit (v : Value)
  | lt (a b : BWExpr)

/-- Python integer coercion used by arithmetic comparisons (`bool` is
numeric). -/
def toIntVal : Value → Option Int
  | VInt n => some n
  | VBool b => some (if b then 1 else 0)
  | _ => none

/-- `a < b` in Python on the embedded values: numeric or string-string
comparison; mixed-kind comparison raises (`none`). -/
def pyLt (a b : Value) : Option Value :=
  match toIntVal a, toIntVal b with
  | some x, some y => some (VBool (x < y))
  | _, _ =>
      match a, b with
      | VStr s, VStr t => some (VBool (s < t))
      | _, _ => none

/-- Evaluate a recorded expression with the candidate substituted for
the placeholder; `none` models an exception inside the compiled lambda. -/
def evalExpr : BWExpr → Value → Option Value
  | .hole, x => some x
  | .lit v, _ => some v
  | .lt a b, x => do
      let va ← evalExpr a x
      let vb ← evalExpr b x
      pyLt va vb

/-- The textual form the generator builds while recording operations
(used as the materialized `FN` constraint's name). -/
def reprExpr : BWExpr → String
  | .hole => "#"
  | .lit v => pyRepr v
  | .lt a b => "(" ++ reprExpr a ++ ") < (" ++ reprExpr b ++ ")"

/-- A `BWC` node: the recorded expression together with the per-node
materialization cache (`self.__dict__['___BWCONSTRAINT___']`). -/
structure BWCNode where
  expr : BWExpr
  cache : Option Constraint := none

/-- `BWConstraintGenerator.__pos__`: return the cached `FN` constraint
when present, otherwise build it from the recorded expression and store
it on the node.  The mutation of the node's `__dict__` is modelled by
returning the node's updated state alongside the constraint. -/
def posBWC (n : BWCNode) : Constraint × BWCNode :=
  match n.cache with
  | some c => (c, n)
  | none =>
      let c := CFn (fun v => evalExpr n.expr v) (reprExpr n.expr)
      (c, { n with cache := some c })

/-! The generic resolver (`BWConstraint.from_generic`) over literal
inputs: constraints pass through, types wrap as `ISA`, dict literals as
`DICT` (with the reserved `DEFAULT` pseudo-key as the default), list
literals as `ARRAY`, tuple literals as `SEQ`, and any other plain value
as a single-value `IN`.  Symbolic generator nodes are resolved through
`posBWC` separately since their materialization mutates the node. -/

/-- A key of a dict literal handed to the resolver: the reserved
`DEFAULT` sentinel or an ordinary string key. -/
inductive GKey where
  | KDefault
  | KStr (s : String)
deriving Repr, DecidableEq

/-- A literal input to the generic resolver. -/
inductive Generic where
  | GC (c : Constraint)
  | GTy (t : Ty)
  | GDictL (entries : List (GKey × Generic))
  | GListL (xs : List Generic)
  | GTupleL (xs : List Generic)
  | GVal (v : Value)

mutual

/-- `BWConstraint.from_generic`.  For a dict literal, the popped
`DEFAULT` value (or the `ALWAYS` fallback) becomes the single positional
argument of `constraint_dict` and is itself resolved; the remaining
string-keyed entries are resolved as named constraints (`**obj` requires
string keys, so resolution ranges over the `KStr` entries). -/
def fromGeneric : Generic → Constraint
  | .GC c => c
  | .GTy t => CIsa [t]
  | .GVal v => CIn [v]
  | .GDictL es => CDict (some (resolveDefault es)) (resolveNamed es)
  | .GListL xs => CColl .arrayKind (fromGenericList xs)
  | .GTupleL xs => CSeq (fromGenericList xs)

/-- Resolution of the popped `DEFAULT` value of a dict literal: the
first `DEFAULT` binding (dict keys are unique) or the `ALWAYS` fallback,
passed through `from_generic` by `from_dict`. -/
def resolveDefault : List (GKey × Generic) → Constraint
  | [] => CAlways
  | (GKey.KDefault, g) :: _ => fromGeneric g
  | (GKey.KStr _, _) :: rest => resolveDefault rest

/-- `from_multi` / elementwise resolution of a literal's items. -/
def fromGenericList : List Generic → List Constraint
  | [] => []
  | g :: gs => fromGeneric g :: fromGenericList gs

/-- Resolution of the string-keyed entries of a dict literal into the
named constraints of the resulting `DICT`. -/
def resolveNamed : List (GKey × Generic) → List (String × Constraint)
  | [] => []
  | (GKey.KStr s, g) :: rest => (s, fromGeneric g) :: resolveNamed rest
  | (GKey.KDefault, _) :: rest => resolveNamed rest

end

/-- The state of the caller's dict object after `from_generic` has
popped the `DEFAULT` pseudo-key (`obj.pop(DEFAULT, ALWAYS)`): the first
`DEFAULT` binding is removed; every other binding stays in place. -/
def popDefaultState (es : List (GKey × Generic)) : List (GKey × Generic) :=
  es.eraseP (fun e => e.1 == GKey.KDefault)

/-- `from_generic` on a dict literal, together with the post-call state
of the argument dict (the resolver mutates its argument). -/
def fromGenericDict (es : List (GKey × Generic)) :
    Constraint × List (GKey × Generic) :=
  (fromGeneric (Generic.GDictL es), popDefaultState es)

/-- `BWDictionaryConstraint.from_dict` (the `DICT` entry point): more
than one positional default becomes their `ANY`; exactly one is
resolved; none with named constraints present means `NEVER`; none at
all means `ALWAYS`. -/
def fromDict (dfltArgs : List Generic) (kw : List (String × Generic)) :
    Constraint :=
  let d : Constraint :=
    if 1 < dfltArgs.length then CAny (dfltArgs.map fromGeneric)
    else
      match dfltArgs with
      | [g] => fromGeneric g
      | _ => if kw.isEmpty then CAlways else CNever
  CDict (some d) (kw.map (fun p => (p.1, fromGeneric p.2)))

/-- `LIST(...)` (`BWListConstraint.from_multi`). -/
def LIST (gs : List Generic) : Constraint :=
  CColl .listKind (fromGenericList gs)

/-- `TUPLE(...)` (`BWTupleConstraint.from_multi`). -/
def TUPLE (gs : List Generic) : Constraint :=
  CColl .tupleKind (fromGenericList gs)

/-- `ARRAY(...)` (`BWArrayConstraint.from_multi`). -/
def ARRAY (gs : List Generic) : Constraint :=
  CColl .arrayKind (fromGenericList gs)

/-- `SEQ(...)` (`BWSequenceConstraint.from_multi`). -/
def SEQ (gs : List Generic) : Constraint :=
  CSeq (fromGenericList gs)

/-- `ANY(...)` (`BWAnyConstraint.from_multi`). -/
def ANY (gs : List Generic) : Constraint :=
  CAny (fromGenericList gs)

/-- `ALL(...)` (`BWAllConstraint.from_multi`). -/
def ALL (gs : List Generic) : Constraint :=
  CAll (fromGenericList gs)

/-- `ISA(...)` (`BWIsaConstraint`). -/
def ISA (tys : List Ty) : Constraint :=
  CIsa tys

/-- The acceptance filter applied inside `convert_in`: a child's
conversion result survives when it is a value other than the `INVALID`
sentinel that the aggregate (`self`) check accepts. -/
def survivor (self : Constraint) : ConvRes → Option Value
  | .ok r => if truthy (check self r) then some r else none
  | .invalid => none
  | .error => none

/-- The materialized `+(BWC < 7)` predicate constraint: the recorded
comparison interpreted against the candidate, wrapped as `FN`. -/
def ltSevenFn : Constraint :=
  CFn (evalExpr (.lt .hole (.lit (VInt 7)))) "(#) < (7)"

/-- `ALL(int, BWC < 7)` as built by the `ALL` combinator. -/
def allIntLtSeven : Constraint :=
  ALL [.GTy TInt, .GC ltSevenFn]

/-!  Theorems. -/

/-- Claim C3: for every constraint and value, when `check` is true
(truthy), `coerce` returns the source value itself; conversion is only
attempted when the check fails. -/
theorem coerce_identity_on_valid (c : Constraint) (v : Value)
    (h : truthy (check c v) = true) : coerce c v = ConvRes.ok v := by
  simp [coerce, h]

/-- Witness for C3 at `ALWAYS` and `5`. -/
theorem coerce_identity_on_valid_witness :
    truthy (check CAlways (VInt 5)) = true ∧
    coerce CAlways (VInt 5) = ConvRes.ok (VInt 5) :=
  ⟨rfl, coerce_identity_on_valid CAlways (VInt 5) rfl⟩

/-- Claim C6, counterexample to the claim as stated: `FN.check` returns
the predicate's raw result, which need not be a boolean — a predicate
returning `6` makes `check` return the integer `6`, not a boolean. -/
theorem fn_check_nonboolean_counterexample :
    check (CFn (fun _ => some (VInt 6)) "six") (VInt 5) = VInt 6 ∧
    ∀ b : Bool, check (CFn (fun _ => some (VInt 6)) "six") (VInt 5) ≠ VBool b :=
  ⟨rfl, fun _ h => Value.noConfusion h⟩

/-- Claim C6 as amended: `FN.check` never propagates an exception — if
evaluating the predicate raises, the result is `False`; otherwise the
predicate's own return value is returned (its truthiness decides
matching). -/
theorem fn_check_never_raises_amended (f : PyFun) (name : String) (v : Value) :
    (f v = none → check (CFn f name) v = VBool false) ∧
    (∀ r, f v = some r → check (CFn f name) v = r) := by
  constructor
  · intro h
    simp [check, h]
  · intro r h
    simp [check, h]

/-- Witness for C6 at a predicate that raises on every input (the
`v.missingProp` example) applied to `5`. -/
theorem fn_check_never_raises_amended_witness :
    (fun _ => none : PyFun) (VInt 5) = none ∧
    check (CFn (fun _ => none) "missing") (VInt 5) = VBool false :=
  ⟨rfl, (fn_check_never_raises_amended (fun _ => none) "missing" (VInt 5)).1 rfl⟩

/-- Claim C7: materializing a symbolic node is idempotent and cached —
once a node has been materialized, materializing its state again returns
the identical cached `FN` constraint and leaves the node unchanged, so
`+b` and `++b` denote the same constraint object and no new predicate is
constructed. -/
theorem posBWC_materialization_idempotent (n : BWCNode) :
    posBWC (posBWC n).2 = ((posBWC n).1, (posBWC n).2) := by
  cases hc : n.cache <;> simp [posBWC, hc]

/-- Claim C10: resolving a dict literal pops the reserved `DEFAULT`
pseudo-key out of the caller's dictionary — after the call the argument
holds every binding except the first `DEFAULT` one; when no `DEFAULT`
binding is present the argument is left unchanged. -/
theorem from_generic_dict_pops_default :
    (∀ es : List (GKey × Generic), (∀ e ∈ es, e.1 ≠ GKey.KDefault) →
       (fromGenericDict es).2 = es) ∧
    (∀ (pre post : List (GKey × Generic)) (g : Generic),
       (∀ e ∈ pre, e.1 ≠ GKey.KDefault) →
       (fromGenericDict (pre ++ (GKey.KDefault, g) :: post)).2 = pre ++ post) := by
  constructor
  · intro es h
    simp only [fromGenericDict, popDefaultState]
    apply List.eraseP_of_forall_not
    intro e he
    simpa using h e he
  · intro pre post g h
    simp only [fromGenericDict, popDefaultState]
    induction pre with
    | nil => simp [List.eraseP_cons]
    | cons e pre ih =>
        have he : e.1 ≠ GKey.KDefault := h e (List.mem_cons_self e pre)
        have hrest : ∀ x ∈ pre, x.1 ≠ GKey.KDefault :=
          fun x hx => h x (List.mem_cons_of_mem e hx)
        simp [List.eraseP_cons, he, ih hrest]

/-- Witness for C10: popping a two-binding literal whose first binding
is the `DEFAULT` pseudo-key leaves exactly the other binding. -/
theorem from_generic_dict_pops_default_witness :
    (fromGenericDict [(GKey.KDefault, Generic.GC CNever),
                      (GKey.KStr "x", Generic.GTy TInt)]).2 =
      [(GKey.KStr "x", Generic.GTy TInt)] :=
  from_generic_dict_pops_default.2 [] [(GKey.KStr "x", Generic.GTy TInt)]
    (Generic.GC CNever) (fun e he => absurd he (List.not_mem_nil e))

/-- Claim C8: sequence algebra — adding two sequences concatenates their
children (`SEQ(a,b) + SEQ(c)` checks like `SEQ(a,b,c)` on every
candidate); a sequence plus a non-sequence appends it as one more
positional child; a non-sequence plus a sequence prepends it;
`n * c` builds a sequence of `n` references to `c`, and
`3 * ISA(int)` checks like `SEQ(ISA(int), ISA(int), ISA(int))` on every
candidate. -/
theorem seq_algebra :
    (∀ (a b c : Constraint) (v : Value),
       check (addC (CSeq [a, b]) (CSeq [c])) v = check (CSeq [a, b, c]) v) ∧
    (∀ (l : List Constraint) (other : Constraint), hasCheckAll other = false →
       addC (CSeq l) other = CSeq (l ++ [other])) ∧
    (∀ (l : List Constraint) (other : Constraint), hasCheckAll other = false →
       addC other (CSeq l) = CSeq (other :: l)) ∧
    (∀ (n : Nat) (c : Constraint), mulC n c = CSeq (List.replicate n c)) ∧
    (∀ v : Value, check (mulC 3 (ISA [TInt])) v =
       check (CSeq [CIsa [TInt], CIsa [TInt], CIsa [TInt]]) v) := by
  refine ⟨fun a b c v => rfl, ?_, ?_, fun n c => rfl, fun v => rfl⟩
  · intro l other h
    cases other <;> first | rfl | simp [hasCheckAll] at h
  · intro l other h
    cases other <;> first | rfl | simp [hasCheckAll] at h

/-- Witness for C8: appending `ISA(str)` (not a sequence) to
`SEQ(ISA(int))`. -/
theorem seq_algebra_witness :
    hasCheckAll (CIsa [TStr]) = false ∧
    addC (CSeq [CIsa [TInt]]) (CIsa [TStr]) = CSeq [CIsa [TInt], CIsa [TStr]] :=
  ⟨rfl, seq_algebra.2.1 [CIsa [TInt]] (CIsa [TStr]) rfl⟩

/-- Claim C1 (defect in the source): the per-element loop of
`BWCollectionConstraint.check_in` returns after examining only the first
element, so `LIST(ISA(int))` accepts `[2, 'hello', 4]` although
`'hello'` matches no child constraint — the claimed "every element
matches at least one child" equivalence fails.  The claim's own two
examples, which are decided by their first element, evaluate as it
states. -/
theorem collection_check_first_element_bug :
    check (LIST [Generic.GTy TInt]) (VList [VInt 2, VStr "hello", VInt 4])
      = VBool true ∧
    truthy (check (CIsa [TInt]) (VStr "hello")) = false ∧
    check (LIST [Generic.GTy TInt]) (VList [VInt 2, VInt 3, VInt 4])
      = VBool true ∧
    check (LIST [Generic.GTy TInt]) (VList [VStr "hello", VInt 3, VInt 4])
      = VBool false :=
  ⟨rfl, rfl, rfl, rfl⟩

/-- Claim C9: a collection constraint with at least one child, none of
them exposing the whole-value probe, checked against an empty candidate
of an accepted container kind: the per-element loop never runs and
`check_in` falls off the end of the function, returning `None` — a falsy
non-boolean — so the empty collection is not accepted. -/
theorem collection_empty_candidate_not_true (k : CollKind)
    (cs : List Constraint) (v : Value) (hne : cs ≠ [])
    (hnp : ∀ c ∈ cs, hasCheckAll c = false)
    (hinst : ((collTypes k).any (isInstance v)) = true)
    (hempty : pyElems v = []) :
    check (CColl k cs) v = VNone ∧ truthy (check (CColl k cs) v) = false := by
  have hca : cs.any hasCheckAll = false := by
    rw [List.any_eq_false]
    intro c hc
    simp [hnp c hc]
  have hchk : check (CColl k cs) v = VNone := by
    cases cs with
    | nil => exact absurd rfl hne
    | cons c0 cs0 => simp [check, hca, hinst, hempty]
  exact ⟨hchk, by rw [hchk]; rfl⟩

/-- Witness for C9: `LIST(ISA(int))` checked against the empty list. -/
theorem collection_empty_candidate_not_true_witness :
    ([CIsa [TInt]] : List Constraint) ≠ [] ∧
    check (CColl CollKind.listKind [CIsa [TInt]]) (VList []) = VNone := by
  refine ⟨by simp, (collection_empty_candidate_not_true CollKind.listKind
    [CIsa [TInt]] (VList []) (by simp) ?_ rfl rfl).1⟩
  intro c hc
  rw [List.mem_singleton] at hc
  subst hc
  rfl

/-- The pairing loop of the sequence check accepts exactly the
candidates whose elements match the child constraints pointwise. -/
lemma seqMatch_iff_forall2 (cs : List Constraint) (xs : List Value) :
    seqMatch cs xs = true ↔
      List.Forall₂ (fun c x => truthy (check c x) = true) cs xs := by
  induction cs generalizing xs with
  | nil => cases xs <;> simp [seqMatch]
  | cons c cs ih =>
      cases xs with
      | nil => simp [seqMatch]
      | cons x xs => simp [seqMatch, ih, List.forall₂_cons]

/-- Claim C4: a sequence constraint fails on candidates that cannot be
iterated; on an iterable candidate it succeeds exactly when the elements
match the child constraints pointwise in order (which forces equal
lengths), and it fails whenever the candidate's length differs from the
number of children. -/
theorem seq_check_arity (cs : List Constraint) (v : Value) :
    (toIter v = none → check (CSeq cs) v = VBool false) ∧
    (∀ items, toIter v = some items →
       (check (CSeq cs) v = VBool true ↔
          List.Forall₂ (fun c x => truthy (check c x) = true) cs items)) ∧
    (∀ items, toIter v = some items → items.length ≠ cs.length →
       check (CSeq cs) v = VBool false) := by
  refine ⟨?_, ?_, ?_⟩
  · intro h
    simp [check, h]
  · intro items h
    simp [check, h, seqMatch_iff_forall2]
  · intro items h hlen
    cases hsm : seqMatch cs items with
    | false => simp [check, h, hsm]
    | true =>
        have hl := ((seqMatch_iff_forall2 cs items).mp hsm).length_eq
        exact absurd hl.symm hlen

/-- Witness for C4: `SEQ(ISA(int))` on the one-element tuple `(3,)`. -/
theorem seq_check_arity_witness :
    toIter (VTuple [VInt 3]) = some [VInt 3] ∧
    check (CSeq [CIsa [TInt]]) (VTuple [VInt 3]) = VBool true := by
  refine ⟨rfl, ((seq_check_arity [CIsa [TInt]] (VTuple [VInt 3])).2.1
    [VInt 3] rfl).mpr ?_⟩
  exact List.Forall₂.cons rfl List.Forall₂.nil

/-- Claim C5: a `DICT` built from named constraints without an explicit
default uses `NEVER`, so any candidate binding with an unnamed key is
rejected; a `DICT` built with no arguments at all uses `ALWAYS` and
accepts every mapping; an explicit `ALWAYS` default reduces the check to
the named-key constraints, permitting arbitrary extra keys. -/
theorem dict_default_semantics :
    (∀ (kw : List (String × Generic)) (entries : List (String × Value))
       (k : String) (val : Value), kw ≠ [] → (k, val) ∈ entries →
       (∀ p ∈ kw, p.1 ≠ k) →
       check (fromDict [] kw) (VDict entries) = VBool false) ∧
    (∀ entries : List (String × Value),
       check (fromDict [] []) (VDict entries) = VBool true) ∧
    (∀ (kw : List (String × Generic)) (entries : List (String × Value)),
       check (fromDict [Generic.GC CAlways] kw) (VDict entries) =
         VBool (dictNamedOk (kw.map (fun p => (p.1, fromGeneric p.2)))
                  entries)) := by
  refine ⟨?_, ?_, ?_⟩
  · intro kw entries k val hkw hmem hunnamed
    have hkwE : kw.isEmpty = false := by
      cases kw
      · exact absurd rfl hkw
      · rfl
    have hcst : fromDict [] kw =
        CDict (some CNever) (kw.map (fun p => (p.1, fromGeneric p.2))) := by
      simp [fromDict, hkwE]
    have hany : (kw.map (fun p => (p.1, fromGeneric p.2))).any
        (fun kc => kc.1 == k) = false := by
      rw [List.any_eq_false]
      intro q hq
      obtain ⟨p, hp, rfl⟩ := List.mem_map.mp hq
      simp [hunnamed p hp]
    have hdef : dictDefaultOk (some CNever)
        (kw.map (fun p => (p.1, fromGeneric p.2))) entries = false := by
      simp only [dictDefaultOk]
      rw [Bool.eq_false_iff]
      intro hall
      have h2 := List.all_eq_true.mp hall (k, val) hmem
      simp [hany, check, truthy] at h2
    rw [hcst]
    simp [check, hdef]
  · intro entries
    simp [fromDict, check, dictNamedOk, dictDefaultOk, truthy]
  · intro kw entries
    have hcst : fromDict [Generic.GC CAlways] kw =
        CDict (some CAlways) (kw.map (fun p => (p.1, fromGeneric p.2))) := by
      simp [fromDict, fromGeneric]
    have hdef : dictDefaultOk (some CAlways)
        (kw.map (fun p => (p.1, fromGeneric p.2))) entries = true := by
      simp only [dictDefaultOk]
      rw [List.all_eq_true]
      intro kv _
      simp [check, truthy]
    rw [hcst]
    simp [check, hdef]

/-- Witness for C5: `DICT(x=int)` rejects `{'x': 5, 'y': 'extra'}`
because of the unnamed key `y`. -/
theorem dict_default_semantics_witness :
    ([("x", Generic.GTy TInt)] : List (String × Generic)) ≠ [] ∧
    check (fromDict [] [("x", Generic.GTy TInt)])
      (VDict [("x", VInt 5), ("y", VStr "extra")]) = VBool false := by
  refine ⟨by simp, dict_default_semantics.1 [("x", Generic.GTy TInt)]
    [("x", VInt 5), ("y", VStr "extra")] "y" (VStr "extra") (by simp) ?_ ?_⟩
  · exact List.mem_cons_of_mem _ (List.mem_cons_self _ _)
  · intro p hp
    rw [List.mem_singleton] at hp
    subst hp
    decide

/-- The `convert_in` loop computes exactly the first surviving child
conversion: the first child result, in order, that is a value the
aggregate check accepts (children that raise would propagate, hence the
no-error hypothesis). -/
lemma convertFold_eq_findSome (self : Constraint) (cs : List Constraint)
    (v : Value) (hne : ∀ c ∈ cs, convert c v ≠ ConvRes.error) :
    convertFold self cs v =
      match (cs.map (fun c => convert c v)).findSome? (survivor self) with
      | some r => ConvRes.ok r
      | none => ConvRes.invalid := by
  induction cs with
  | nil => rfl
  | cons c cs ih =>
      have hc : convert c v ≠ ConvRes.error := hne c (List.mem_cons_self c cs)
      have hrest : ∀ x ∈ cs, convert x v ≠ ConvRes.error :=
        fun x hx => hne x (List.mem_cons_of_mem c hx)
      simp only [convertFold, List.map_cons, List.findSome?_cons]
      cases hcv : convert c v with
      | error => exact absurd hcv hc
      | invalid => simpa [survivor] using ih hrest
      | ok r =>
          cases ht : truthy (check self r) with
          | true => simp [survivor, ht]
          | false => simpa [survivor, ht] using ih hrest

/-- Claim C2: for every `ALL` constraint and source value failing the
aggregate check, `convert` returns the first child-converted result that
is not the invalid marker and is accepted by the whole conjunction's
check, and the invalid marker when no child's result survives; in
particular `ALL(ISA(int), BWC < 7)` coerces `'5'` to `5` and fails to
coerce `'8'`. -/
theorem all_convert_first_survivor :
    (∀ (cs : List Constraint) (v : Value),
       truthy (check (CAll cs) v) = false →
       (∀ c ∈ cs, convert c v ≠ ConvRes.error) →
       convert (CAll cs) v =
         match (cs.map (fun c => convert c v)).findSome?
                 (survivor (CAll cs)) with
         | some r => ConvRes.ok r
         | none => ConvRes.invalid) ∧
    coerce allIntLtSeven (VStr "5") = ConvRes.ok (VInt 5) ∧
    coerce allIntLtSeven (VStr "8") = ConvRes.invalid := by
  refine ⟨?_, rfl, rfl⟩
  intro cs v _ hne
  exact convertFold_eq_findSome (CAll cs) cs v hne

/-- Witness for C2: `ALL(ISA(int), BWC < 7)` converting `'9'` (the check
fails and no child result survives the aggregate check). -/
theorem all_convert_first_survivor_witness :
    truthy (check (CAll [CIsa [TInt], ltSevenFn]) (VStr "9")) = false ∧
    convert (CAll [CIsa [TInt], ltSevenFn]) (VStr "9") =
      match ([CIsa [TInt], ltSevenFn].map
              (fun c => convert c (VStr "9"))).findSome?
              (survivor (CAll [CIsa [TInt], ltSevenFn])) with
      | some r => ConvRes.ok r
      | none => ConvRes.invalid := by
  refine ⟨rfl, all_convert_first_survivor.1 [CIsa [TInt], ltSevenFn]
    (VStr "9") rfl ?_⟩
  intro c hc
  rcases List.mem_cons.mp hc with h | h
  · subst h
    exact fun hh => ConvRes.noConfusion hh
  · rw [List.mem_singleton] at h
    subst h
    exact fun hh => ConvRes.noConfusion hh

end BW
